import Mathlib

/-!
Verification of the pypdl core (`src/pypdl/utls.py`): segment-table planning,
segment-file merging, and the download workers.

Modelling conventions:
* Python integers are `Nat`/`Int` (they are unbounded in Python).
* Python's float expression `partition_size = size / segments` followed by
  `int(partition_size * i)` is modelled as the exact rational floor
  `size * i / n` (natural division).  All operands are non-negative, so
  Python's `int` truncation agrees with the floor of the exact value.
* The manifest file `filepath + ".json"` is modelled by an explicit
  `Option Manifest` argument (`none` = missing or unparsable, which the
  source swallows with `except Exception: pass`) together with the
  `Manifest` value the call writes back.
* The file system used by `combine_files` is a partial map from file names
  to byte lists; the names `filepath`, `f"{filepath}.{i}.bin"` and
  `filepath + ".json"` are pairwise distinct strings for a fixed
  `filepath`, so they are represented by a dedicated inductive type.
-/

/-- MEGABYTE constant from the source. -/
def MEGABYTE : Nat := 1048576

/-- BLOCKSIZE * BLOCKS from the source. -/
def CHUNKSIZE : Nat := 4096 * 1024

/-- `to_mb(size_in_bytes) = size_in_bytes / MEGABYTE`, exact rational value. -/
def to_mb (size_in_bytes : Nat) : ℚ := (size_in_bytes : ℚ) / (MEGABYTE : ℚ)

/-- The `etag` argument has Python type `Union[str, bool]`. -/
inductive Etag where
  | str (s : String)
  | boolean (b : Bool)
deriving DecidableEq

/-- Python truthiness of an `etag` value (`if etag and ...`). -/
def Etag.truthy : Etag → Bool
  | .str s => !(s == "")
  | .boolean b => b

/-- The JSON object written to / read from `filepath + ".json"`. -/
structure Manifest where
  url : String
  etag : Etag
  segments : Int
deriving DecidableEq

/-- One entry `dic[segment]` of the segment table.  `end_` models the key
`"end"`; it is an `Int` because the source decrements an `int()` result that
can be `0`. -/
structure SegSpec where
  start : Nat
  end_ : Int
  segment_size : Nat
  path : String
deriving DecidableEq

/-- The dictionary returned by `create_segment_table`: keys `"url"`,
`"segments"` and the integer keys `0 .. segments-1` (an ordered list here). -/
structure SegTable where
  url : String
  segments : Int
  specs : List SegSpec
deriving DecidableEq

/-- Exceptions that the modelled fragments can raise. -/
inductive PyErr where
  | zeroDivision
  | fileNotFound
deriving DecidableEq

/-- `start = int(partition_size * i)` with exact arithmetic:
`floor (size * i / n)`. -/
def segStart (size n i : Nat) : Nat := size * i / n

/-- The loop body of `create_segment_table` for index `i` (with `n ≥ 1` the
effective segment count):
`start = int(partition_size * segment)`, `end = int(partition_size * (segment+1))`,
`segment_size = end - start`, and `end -= 1` for every non-final segment. -/
def mkSpec (filepath : String) (size n i : Nat) : SegSpec :=
  let start := segStart size n i
  let e := segStart size n (i + 1)
  let segment_size := e - start
  let end_ : Int := if i = n - 1 then (e : Int) else (e : Int) - 1
  ⟨start, end_, segment_size, filepath ++ "." ++ toString i ++ ".bin"⟩

/-- Line 49: `segments = 5 if (segments > 5) and (to_mb(size) < 50) else segments`. -/
def clampSegments (segments : Int) (size : Nat) : Int :=
  if segments > 5 ∧ to_mb size < 50 then 5 else segments

/-- Lines 49-57: the segment count actually used, after the clamp and the
adoption of a matching manifest (`if etag and progress["url"] == url and
progress["etag"] == etag: segments = progress["segments"]`). -/
def effectiveSegments (url : String) (segments : Int) (size : Nat) (etag : Etag)
    (existing : Option Manifest) : Int :=
  let s := clampSegments segments size
  match existing with
  | none => s
  | some progress =>
      if etag.truthy ∧ progress.url = url ∧ progress.etag = etag then progress.segments else s

/-- `create_segment_table(url, filepath, segments, size, etag)`: the first
component is the manifest written to `filepath + ".json"` (written before the
partition arithmetic runs), the second the returned dictionary, or the
`ZeroDivisionError` raised by `size / segments` when the effective segment
count is `0`.  `range(segments)` of a negative count is empty, hence
`Int.toNat`. -/
def create_segment_table (url filepath : String) (segments : Int) (size : Nat)
    (etag : Etag) (existing : Option Manifest) : Manifest × Except PyErr SegTable :=
  let s := effectiveSegments url segments size etag existing
  (⟨url, etag, s⟩,
    if s = 0 then .error .zeroDivision
    else .ok ⟨url, s, (List.range s.toNat).map (mkSpec filepath size s.toNat)⟩)

/-- The table returned by a successful call. -/
def tableOf (r : Manifest × Except PyErr SegTable) : Option SegTable := r.2.toOption

instance {ε α : Type} [DecidableEq ε] [DecidableEq α] : DecidableEq (Except ε α)
  | .ok a, .ok b =>
    if h : a = b then .isTrue (by rw [h]) else .isFalse (fun hh => h (Except.ok.inj hh))
  | .ok _, .error _ => .isFalse (fun hh => Except.noConfusion hh)
  | .error _, .ok _ => .isFalse (fun hh => Except.noConfusion hh)
  | .error e, .error f =>
    if h : e = f then .isTrue (by rw [h]) else .isFalse (fun hh => h (Except.error.inj hh))

/-- The float comparison `to_mb(size) < 50` is equivalent to the integer
comparison `size < 50 * MEGABYTE`. -/
lemma to_mb_lt_iff (size : Nat) : to_mb size < 50 ↔ size < 50 * MEGABYTE := by
  unfold to_mb
  rw [div_lt_iff₀ (by norm_num [MEGABYTE] : (0 : ℚ) < (MEGABYTE : ℚ))]
  exact_mod_cast Iff.rfl

/-- Integer-arithmetic form of `effectiveSegments` (used to evaluate concrete
instances, since rational normalisation does not reduce definitionally). -/
def effectiveSegmentsN (url : String) (segments : Int) (size : Nat) (etag : Etag)
    (existing : Option Manifest) : Int :=
  let s := if 5 < segments ∧ size < 50 * MEGABYTE then 5 else segments
  match existing with
  | none => s
  | some progress =>
      if etag.truthy ∧ progress.url = url ∧ progress.etag = etag then progress.segments else s

lemma effectiveSegments_eq (url : String) (segments : Int) (size : Nat) (etag : Etag)
    (existing : Option Manifest) :
    effectiveSegments url segments size etag existing =
      effectiveSegmentsN url segments size etag existing := by
  unfold effectiveSegments effectiveSegmentsN clampSegments
  simp only [to_mb_lt_iff, gt_iff_lt]

/-- Evaluation form of `create_segment_table` with the float comparison
replaced by the equivalent integer one. -/
lemma create_segment_table_eval (url filepath : String) (segments : Int) (size : Nat)
    (etag : Etag) (existing : Option Manifest) :
    create_segment_table url filepath segments size etag existing =
      (⟨url, etag, effectiveSegmentsN url segments size etag existing⟩,
        if effectiveSegmentsN url segments size etag existing = 0 then .error .zeroDivision
        else .ok ⟨url, effectiveSegmentsN url segments size etag existing,
          (List.range (effectiveSegmentsN url segments size etag existing).toNat).map
            (mkSpec filepath size (effectiveSegmentsN url segments size etag existing).toNat)⟩) := by
  unfold create_segment_table
  rw [effectiveSegments_eq]

/-- Byte `k` of the resource falls in segment `i` of the table: `i` indexes a
spec whose inclusive range, with the final segment's stored end replaced by
the true last byte `size - 1` of the resource, contains `k`. -/
def coversByte (size : Nat) (specs : List SegSpec) (i k : Nat) : Prop :=
  ∃ sp, specs[i]? = some sp ∧ sp.start ≤ k ∧
    (k : Int) ≤ (if i = specs.length - 1 then (size : Int) - 1 else sp.end_)

lemma segStart_mono (size n : Nat) {i j : Nat} (h : i ≤ j) :
    segStart size n i ≤ segStart size n j :=
  Nat.div_le_div_right (Nat.mul_le_mul_left size h)

lemma segStart_zero (size n : Nat) : segStart size n 0 = 0 := by
  simp [segStart]

lemma segStart_self (size n : Nat) (hn : 0 < n) : segStart size n n = size := by
  unfold segStart
  rw [Nat.mul_comm]
  exact Nat.mul_div_cancel_left size hn

/-- The half-open blocks `[segStart i, segStart (i+1))`, `i < n`, tile
`[0, size)`: every byte below `size` lies in exactly one block. -/
lemma segStart_partition (size n k : Nat) (hn : 0 < n) (hk : k < size) :
    ∃! i, i < n ∧ segStart size n i ≤ k ∧ k < segStart size n (i + 1) := by
  classical
  have hP0 : segStart size n 0 ≤ k := by
    rw [segStart_zero]; exact Nat.zero_le k
  have hile : Nat.findGreatest (fun j => segStart size n j ≤ k) (n - 1) ≤ n - 1 :=
    Nat.findGreatest_le (n - 1)
  have hPi : segStart size n (Nat.findGreatest (fun j => segStart size n j ≤ k) (n - 1)) ≤ k :=
    Nat.findGreatest_spec (P := fun j => segStart size n j ≤ k) (Nat.zero_le _) hP0
  have hupper :
      k < segStart size n (Nat.findGreatest (fun j => segStart size n j ≤ k) (n - 1) + 1) := by
    by_cases hcase : Nat.findGreatest (fun j => segStart size n j ≤ k) (n - 1) + 1 ≤ n - 1
    · have hng :
          ¬ segStart size n (Nat.findGreatest (fun j => segStart size n j ≤ k) (n - 1) + 1) ≤ k :=
        Nat.findGreatest_is_greatest (P := fun j => segStart size n j ≤ k)
          (Nat.lt_succ_self _) hcase
      omega
    · have hie : Nat.findGreatest (fun j => segStart size n j ≤ k) (n - 1) + 1 = n := by omega
      rw [hie, segStart_self size n hn]
      exact hk
  refine ⟨Nat.findGreatest (fun j => segStart size n j ≤ k) (n - 1), ⟨by omega, hPi, hupper⟩, ?_⟩
  rintro j ⟨hj, hj1, hj2⟩
  rcases Nat.lt_trichotomy j (Nat.findGreatest (fun j => segStart size n j ≤ k) (n - 1)) with
    hlt | heq | hgt
  · have := segStart_mono size n (show j + 1 ≤ _ from hlt)
    omega
  · exact heq
  · have := segStart_mono size n (show _ + 1 ≤ j from hgt)
    omega

lemma specs_length (filepath : String) (size n : Nat) :
    ((List.range n).map (mkSpec filepath size n)).length = n := by
  simp

lemma specs_getElem? (filepath : String) (size n i : Nat) (hi : i < n) :
    ((List.range n).map (mkSpec filepath size n))[i]? = some (mkSpec filepath size n i) := by
  simp [List.getElem?_map, List.getElem?_range, hi]

/-- For an in-range index, membership of byte `k` in segment `i` of the
generated spec list is exactly membership in the half-open block
`[segStart i, segStart (i+1))`. -/
lemma coversByte_mk_iff (filepath : String) (size n i k : Nat) (hn : 0 < n) (hi : i < n)
    (hk : k < size) :
    coversByte size ((List.range n).map (mkSpec filepath size n)) i k ↔
      (segStart size n i ≤ k ∧ k < segStart size n (i + 1)) := by
  unfold coversByte
  rw [specs_length, specs_getElem? filepath size n i hi]
  constructor
  · rintro ⟨sp, hsp, h1, h2⟩
    obtain rfl : sp = mkSpec filepath size n i := by
      injection hsp with h; exact h.symm
    refine ⟨h1, ?_⟩
    by_cases hl : i = n - 1
    · have hie : i + 1 = n := by omega
      rw [hie, segStart_self size n hn]
      exact hk
    · rw [if_neg hl] at h2
      simp only [mkSpec, if_neg hl] at h2
      omega
  · rintro ⟨h1, h2⟩
    refine ⟨mkSpec filepath size n i, rfl, h1, ?_⟩
    by_cases hl : i = n - 1
    · rw [if_pos hl]
      omega
    · rw [if_neg hl]
      simp only [mkSpec, if_neg hl]
      omega

lemma coversByte_lt_length {size : Nat} {specs : List SegSpec} {i k : Nat}
    (h : coversByte size specs i k) : i < specs.length := by
  obtain ⟨sp, hsp, -, -⟩ := h
  by_contra hge
  rw [List.getElem?_eq_none (by omega)] at hsp
  exact Option.noConfusion hsp

/-- Unfolding of a successful `create_segment_table` call: with
`s = effectiveSegments ...` the call raised no error only if `s ≠ 0`, and the
returned table is the one generated by the partition loop. -/
lemma create_ok_specs {url filepath : String} {segments : Int} {size : Nat} {etag : Etag}
    {existing : Option Manifest} {t : SegTable}
    (hok : (create_segment_table url filepath segments size etag existing).2 = Except.ok t) :
    effectiveSegments url segments size etag existing ≠ 0 ∧
      t = ⟨url, effectiveSegments url segments size etag existing,
        (List.range (effectiveSegments url segments size etag existing).toNat).map
          (mkSpec filepath size (effectiveSegments url segments size etag existing).toNat)⟩ := by
  unfold create_segment_table at hok
  dsimp only at hok
  split at hok
  · exact Except.noConfusion hok
  · refine ⟨by assumption, ?_⟩
    injection hok with h
    exact h.symm
/-- C1: for every resource size ≥ 1 and every effective segment count ≥ 1, the
table returned by `create_segment_table` tiles `[0, size-1]` exactly — after
taking the final segment's end as the true last byte `size - 1`, every byte
`k < size` lies in exactly one segment's inclusive range: no gaps, no
overlaps, full coverage. -/
theorem create_segment_table_tiles (url filepath : String) (segments : Int) (size : Nat)
    (etag : Etag) (existing : Option Manifest) (t : SegTable)
    (hok : (create_segment_table url filepath segments size etag existing).2 = Except.ok t)
    (_hsize : 1 ≤ size) (hn : 1 ≤ t.specs.length) (k : Nat) (hk : k < size) :
    ∃! i, coversByte size t.specs i k := by
  obtain ⟨hs0, rfl⟩ := create_ok_specs hok
  set n := (effectiveSegments url segments size etag existing).toNat with hndef
  have hnpos : 0 < n := by simpa using hn
  obtain ⟨i, ⟨hi, h1, h2⟩, huniq⟩ := segStart_partition size n k hnpos hk
  refine ⟨i, ?_, ?_⟩
  · exact (coversByte_mk_iff filepath size n i k hnpos hi hk).mpr ⟨h1, h2⟩
  · intro j hj
    have hjlt : j < n := by
      have := coversByte_lt_length hj
      simpa using this
    exact huniq j ⟨hjlt, (coversByte_mk_iff filepath size n j k hnpos hjlt hk).mp hj⟩

theorem create_segment_table_tiles_witness :
    ∃! i, coversByte 6
      [⟨0, 1, 2, "f.0.bin"⟩, ⟨2, 3, 2, "f.1.bin"⟩, ⟨4, 6, 2, "f.2.bin"⟩] i 4 :=
  create_segment_table_tiles "u" "f" 3 6 (Etag.str "e") none
    ⟨"u", 3, [⟨0, 1, 2, "f.0.bin"⟩, ⟨2, 3, 2, "f.1.bin"⟩, ⟨4, 6, 2, "f.2.bin"⟩]⟩
    (by rw [create_segment_table_eval]; decide) (by decide) (by decide) 4 (by decide)

/-- C2 counterexample: for size 1000000 and 4 segments the table's final
segment stores end 1000000 (one past the last byte), not 999999 as the claim
states. -/
theorem million_four_last_end_cx :
    ((tableOf (create_segment_table "u" "f" 4 1000000 (Etag.str "e") none)).bind
        (fun t => t.specs[3]?)).map SegSpec.end_ = some 1000000 ∧
      (1000000 : Int) ≠ 999999 := by
  simp only [tableOf, create_segment_table_eval]
  decide

/-- C2 amended: for size 1000000 and requested count 4, the table has exactly
four segments with stored inclusive ranges [0,249999], [250000,499999],
[500000,749999] and [750000,1000000] — the final stored end is 1000000, one
past the true last byte — and each `segment_size` is 250000. -/
theorem million_four_table_amended :
    (tableOf (create_segment_table "u" "f" 4 1000000 (Etag.str "e") none)).map
      (fun t => t.specs.map fun s => (s.start, s.end_, s.segment_size)) =
    some [(0, 249999, 250000), (250000, 499999, 250000),
          (500000, 749999, 250000), (750000, 1000000, 250000)] := by
  simp only [tableOf, create_segment_table_eval]
  decide

/-- C5 counterexample: in the (size 1000000, 4 segments) table the last
segment (index 3 of 4) has `segment_size` 250000 while `end - start + 1` is
250001, so the claimed relation for the last segment fails. -/
theorem segment_size_last_cx :
    ((tableOf (create_segment_table "u" "f" 4 1000000 (Etag.str "e") none)).map
        (fun t => t.specs.length) = some 4) ∧
    ((tableOf (create_segment_table "u" "f" 4 1000000 (Etag.str "e") none)).bind
        (fun t => t.specs[3]?)).map
        (fun sp => ((sp.segment_size : Int), sp.end_ - (sp.start : Int) + 1)) =
      some (250000, 250001) ∧
    (250000 : Int) ≠ 250001 := by
  simp only [tableOf, create_segment_table_eval]
  decide

/-- C5 amended: in every table returned by `create_segment_table`, the stored
`segment_size` equals `end - start` for the LAST segment and `end - start + 1`
for every other segment (the claim had the two cases swapped). -/
theorem segment_size_relation (url filepath : String) (segments : Int) (size : Nat)
    (etag : Etag) (existing : Option Manifest) (t : SegTable) (i : Nat) (sp : SegSpec)
    (hok : (create_segment_table url filepath segments size etag existing).2 = Except.ok t)
    (hsp : t.specs[i]? = some sp) :
    (sp.segment_size : Int) =
      if i = t.specs.length - 1 then sp.end_ - (sp.start : Int)
      else sp.end_ - (sp.start : Int) + 1 := by
  obtain ⟨hs0, rfl⟩ := create_ok_specs hok
  set n := (effectiveSegments url segments size etag existing).toNat with hndef
  have hi : i < n := by
    by_contra hge
    rw [show (⟨url, effectiveSegments url segments size etag existing,
          (List.range n).map (mkSpec filepath size n)⟩ : SegTable).specs =
        (List.range n).map (mkSpec filepath size n) from rfl,
      List.getElem?_eq_none (by simpa using hge)] at hsp
    exact Option.noConfusion hsp
  rw [show (⟨url, effectiveSegments url segments size etag existing,
        (List.range n).map (mkSpec filepath size n)⟩ : SegTable).specs =
      (List.range n).map (mkSpec filepath size n) from rfl] at hsp ⊢
  rw [specs_getElem? filepath size n i hi] at hsp
  obtain rfl : sp = mkSpec filepath size n i := by
    injection hsp with h; exact h.symm
  rw [specs_length]
  have hle : segStart size n i ≤ segStart size n (i + 1) := segStart_mono size n (by omega)
  by_cases hl : i = n - 1
  · rw [if_pos hl]
    simp only [mkSpec, if_pos hl]
    omega
  · rw [if_neg hl]
    simp only [mkSpec, if_neg hl]
    omega

/-- C6 counterexample: with resource size 0 (and segment count 4) the
function does not fail at all — it returns a table.  No `InvalidPlanError`
exists anywhere in the source. -/
theorem zero_size_no_error_cx :
    (tableOf (create_segment_table "u" "f" 4 0 (Etag.str "e") none)).isSome = true := by
  simp only [tableOf, create_segment_table_eval]
  decide

/-- C6 amended: `create_segment_table` validates nothing.  Its only failure is
the `ZeroDivisionError` raised by `size / segments`, which happens exactly when
the effective segment count is 0; a resource size of 0 or a negative segment
count returns a (degenerate) table without any error. -/
theorem create_error_iff_zero_segments (url filepath : String) (segments : Int) (size : Nat)
    (etag : Etag) (existing : Option Manifest) :
    (create_segment_table url filepath segments size etag existing).2 =
        Except.error PyErr.zeroDivision ↔
      effectiveSegments url segments size etag existing = 0 := by
  unfold create_segment_table
  dsimp only
  split
  · next h => simp [h]
  · next h => simp [h]

/-- C7 counterexample: with `etag = False` (same etag in both calls), a first
call with requested count 4 persists a manifest, but a second call with
requested count 2 ignores it and returns a 2-segment table — not the first
call's 4-segment table. -/
theorem replan_falsy_etag_cx :
    (tableOf (create_segment_table "u" "f" 2 1000000 (Etag.boolean false)
        (some (create_segment_table "u" "f" 4 1000000 (Etag.boolean false) none).1))).map
        SegTable.segments = some 2 ∧
    (tableOf (create_segment_table "u" "f" 4 1000000 (Etag.boolean false) none)).map
        SegTable.segments = some 4 ∧
    (2 : Int) ≠ 4 := by
  simp only [tableOf, create_segment_table_eval]
  decide

/-- C7 amended: replanning is idempotent when the (unchanged) etag is truthy:
after a first call has persisted its manifest, a second call with the same
url, filepath, size and etag returns the identical table for EVERY requested
segment count of the second call.  (With a falsy etag the adoption is
skipped.) -/
theorem replan_idempotent_truthy (url filepath : String) (s1 s2 : Int) (size : Nat)
    (etag : Etag) (existing : Option Manifest) (t1 : SegTable)
    (htruthy : etag.truthy = true)
    (hok : (create_segment_table url filepath s1 size etag existing).2 = Except.ok t1) :
    (create_segment_table url filepath s2 size etag
        (some (create_segment_table url filepath s1 size etag existing).1)).2 =
      Except.ok t1 := by
  obtain ⟨hs0, rfl⟩ := create_ok_specs hok
  have hm : (create_segment_table url filepath s1 size etag existing).1 =
      ⟨url, etag, effectiveSegments url s1 size etag existing⟩ := rfl
  rw [hm]
  have heff : effectiveSegments url s2 size etag
      (some ⟨url, etag, effectiveSegments url s1 size etag existing⟩) =
      effectiveSegments url s1 size etag existing := by
    unfold effectiveSegments
    simp [htruthy]
  unfold create_segment_table
  dsimp only
  rw [heff, if_neg hs0]

theorem replan_idempotent_truthy_witness :
    (create_segment_table "u" "f" 7 100 (Etag.str "e")
        (some (create_segment_table "u" "f" 4 100 (Etag.str "e") none).1)).2 =
      Except.ok ⟨"u", 4, [⟨0, 24, 25, "f.0.bin"⟩, ⟨25, 49, 25, "f.1.bin"⟩,
        ⟨50, 74, 25, "f.2.bin"⟩, ⟨75, 100, 25, "f.3.bin"⟩]⟩ :=
  replan_idempotent_truthy "u" "f" 4 7 100 (Etag.str "e") none
    ⟨"u", 4, [⟨0, 24, 25, "f.0.bin"⟩, ⟨25, 49, 25, "f.1.bin"⟩,
      ⟨50, 74, 25, "f.2.bin"⟩, ⟨75, 100, 25, "f.3.bin"⟩]⟩
    (by decide) (by rw [create_segment_table_eval]; decide)

/-- C8 counterexample: with a falsy etag (`False`, i.e. no validator) and an
existing manifest whose url matches, the resumed plan is NOT trusted: the
call uses the caller's requested count 2, not the manifest's recorded 3. -/
theorem absent_etag_adoption_cx :
    (tableOf (create_segment_table "u" "f" 2 1000000 (Etag.boolean false)
        (some ⟨"u", Etag.boolean false, 3⟩))).map SegTable.segments = some 2 ∧
    (2 : Int) ≠ 3 := by
  simp only [tableOf, create_segment_table_eval]
  decide

/-- C8 amended: when the etag is falsy (validator absent), an existing
manifest is IGNORED, not trusted unconditionally: `create_segment_table` uses
the caller's clamped segment count regardless of the manifest's recorded
count. -/
theorem absent_etag_ignores_manifest (url filepath : String) (segments : Int) (size : Nat)
    (etag : Etag) (m : Manifest) (hfalsy : etag.truthy = false) :
    (create_segment_table url filepath segments size etag (some m)).1.segments =
      clampSegments segments size := by
  unfold create_segment_table effectiveSegments
  dsimp only
  simp [hfalsy]

theorem absent_etag_ignores_manifest_witness :
    (create_segment_table "u" "f" 2 7 (Etag.boolean false)
        (some ⟨"u", Etag.str "x", 3⟩)).1.segments = clampSegments 2 7 :=
  absent_etag_ignores_manifest "u" "f" 2 7 (Etag.boolean false) ⟨"u", Etag.str "x", 3⟩ rfl

/-- C9: the segment-count clamp: with no pre-existing manifest, the count used
(and written to the manifest) is 5 exactly when more than 5 segments are
requested for a resource smaller than 50 MB, and the requested count
unchanged otherwise; in particular a 10 MB resource with requested count 10
yields effective count 5. -/
theorem clamp_rule :
    (∀ (url filepath : String) (segments : Int) (size : Nat) (etag : Etag),
      (create_segment_table url filepath segments size etag none).1.segments =
        if 5 < segments ∧ size < 50 * MEGABYTE then 5 else segments) ∧
    (create_segment_table "u" "f" 10 (10 * MEGABYTE) (Etag.str "e") none).1.segments = 5 := by
  constructor
  · intro url filepath segments size etag
    rw [create_segment_table_eval]
    rfl
  · rw [create_segment_table_eval]
    decide

theorem segment_size_relation_witness :
    (((⟨4, 6, 2, "f.2.bin"⟩ : SegSpec).segment_size : Int) =
      if 2 = (⟨"u", 3, [⟨0, 1, 2, "f.0.bin"⟩, ⟨2, 3, 2, "f.1.bin"⟩,
            ⟨4, 6, 2, "f.2.bin"⟩]⟩ : SegTable).specs.length - 1
      then (⟨4, 6, 2, "f.2.bin"⟩ : SegSpec).end_ - ((⟨4, 6, 2, "f.2.bin"⟩ : SegSpec).start : Int)
      else (⟨4, 6, 2, "f.2.bin"⟩ : SegSpec).end_ -
          ((⟨4, 6, 2, "f.2.bin"⟩ : SegSpec).start : Int) + 1) :=
  segment_size_relation "u" "f" 3 6 (Etag.str "e") none
    ⟨"u", 3, [⟨0, 1, 2, "f.0.bin"⟩, ⟨2, 3, 2, "f.1.bin"⟩, ⟨4, 6, 2, "f.2.bin"⟩]⟩ 2
    ⟨4, 6, 2, "f.2.bin"⟩ (by rw [create_segment_table_eval]; decide) (by decide)

/-! ### combine_files

The file system visible to `combine_files(filepath, segments)` maps file names
to byte lists (`none` = file absent).  For a fixed `filepath` the three name
shapes it touches — the destination `filepath`, the segment files
`f"{filepath}.{i}.bin"` and the manifest `filepath + ".json"` — are pairwise
distinct strings (distinct suffixes, and decimal `str(i)` is injective), so
they are represented by a dedicated name type. -/

/-- File names derived from one destination `filepath`. -/
inductive FName where
  | dest
  | seg (i : Nat)
  | manifest
deriving DecidableEq

/-- A file system: contents of each file, `none` when the file is absent. -/
def FS : Type := FName → Option (List Nat)

/-- Writing (creating or truncating) a file. -/
def fsWrite (fs : FS) (name : FName) (content : List Nat) : FS :=
  fun m => if m = name then some content else fs m

/-- `Path.unlink()`: removing a file. -/
def fsUnlink (fs : FS) (name : FName) : FS :=
  fun m => if m = name then none else fs m

/-- The inner `while True` loop of `combine_files`: read the source in
`CHUNKSIZE` chunks, appending each non-empty chunk to the destination, and
stop at the first empty read. -/
def copyChunks (src dest : List Nat) : List Nat :=
  if _h : src = [] then dest
  else copyChunks (src.drop CHUNKSIZE) (dest ++ src.take CHUNKSIZE)
termination_by src.length
decreasing_by
  have hlen : 0 < src.length := List.length_pos.mpr _h
  have : 0 < CHUNKSIZE := by norm_num [CHUNKSIZE]
  simp only [List.length_drop]
  omega

lemma copyChunks_eq (src dest : List Nat) : copyChunks src dest = dest ++ src := by
  by_cases h : src = []
  · subst h
    rw [copyChunks]
    simp
  · rw [copyChunks]
    rw [dif_neg h]
    rw [copyChunks_eq (src.drop CHUNKSIZE) (dest ++ src.take CHUNKSIZE)]
    rw [List.append_assoc, List.take_append_drop]
termination_by src.length
decreasing_by
  have hlen : 0 < src.length := List.length_pos.mpr h
  have : 0 < CHUNKSIZE := by norm_num [CHUNKSIZE]
  simp only [List.length_drop]
  omega

/-- The `for i in range(segments)` loop of `combine_files`: for each index in
order, open the segment file (raising if it is absent), stream-copy its whole
content onto the end of the destination, then delete the segment file. -/
def combineSegs (fs : FS) : List Nat → Except PyErr FS
  | [] => .ok fs
  | i :: rest =>
    match fs (.seg i) with
    | none => .error .fileNotFound
    | some content =>
        combineSegs
          (fsUnlink (fsWrite fs .dest (copyChunks content ((fs .dest).getD []))) (.seg i))
          rest

/-- `combine_files(filepath, segments)`: open the destination with mode "wb"
(truncating it), copy the segment files in ascending index order deleting each
one, then `unlink` the manifest file. -/
def combine_files (fs : FS) (segments : Nat) : Except PyErr FS :=
  let fs1 := fsWrite fs .dest []
  match combineSegs fs1 (List.range segments) with
  | .error e => .error e
  | .ok fs2 =>
    match fs2 FName.manifest with
    | none => .error .fileNotFound
    | some _ => .ok (fsUnlink fs2 FName.manifest)

lemma fsWrite_dest_seg (fs : FS) (c : List Nat) (j : Nat) :
    fsWrite fs .dest c (.seg j) = fs (.seg j) := by
  simp [fsWrite]

lemma fsUnlink_seg_seg (fs : FS) (i j : Nat) (h : j ≠ i) :
    fsUnlink fs (.seg i) (.seg j) = fs (.seg j) := by
  simp [fsUnlink, h]

/-- Invariant of the copy loop: processing a duplicate-free index list whose
segment files all exist succeeds, appends their contents in order to the
destination, deletes exactly those segment files, and leaves every other file
unchanged. -/
lemma combineSegs_spec (idxs : List Nat) :
    ∀ (fs : FS) (d : List Nat) (contents : Nat → List Nat),
      idxs.Nodup → fs .dest = some d →
      (∀ i ∈ idxs, fs (.seg i) = some (contents i)) →
      ∃ fs', combineSegs fs idxs = .ok fs' ∧
        fs' .dest = some (d ++ (idxs.map contents).flatten) ∧
        (∀ i ∈ idxs, fs' (.seg i) = none) ∧
        (∀ j, j ∉ idxs → fs' (.seg j) = fs (.seg j)) ∧
        fs' .manifest = fs .manifest := by
  induction idxs with
  | nil =>
      intro fs d contents _ hd _
      exact ⟨fs, rfl, by simpa using hd, by simp, fun j _ => rfl, rfl⟩
  | cons i rest ih =>
      intro fs d contents hnodup hd hc
      have hi : fs (.seg i) = some (contents i) := hc i (List.mem_cons_self i rest)
      have hinotin : i ∉ rest := (List.nodup_cons.mp hnodup).1
      have hrestnodup : rest.Nodup := (List.nodup_cons.mp hnodup).2
      set fs1 : FS :=
        fsUnlink (fsWrite fs .dest (copyChunks (contents i) ((fs .dest).getD []))) (.seg i)
        with hfs1
      have hd1 : fs1 .dest = some (d ++ contents i) := by
        rw [hfs1]
        simp [fsUnlink, fsWrite, hd, copyChunks_eq]
      have hc1 : ∀ j ∈ rest, fs1 (.seg j) = some (contents j) := by
        intro j hj
        have hji : j ≠ i := fun he => hinotin (he ▸ hj)
        rw [hfs1, fsUnlink_seg_seg _ _ _ hji, fsWrite_dest_seg]
        exact hc j (List.mem_cons_of_mem i hj)
      obtain ⟨fs', hrun, hdest, hgone, hframe, hman⟩ := ih fs1 (d ++ contents i) contents
        hrestnodup hd1 hc1
      refine ⟨fs', ?_, ?_, ?_, ?_, ?_⟩
      · rw [combineSegs, hi]
        exact hrun
      · rw [hdest]
        simp
      · intro j hj
        rcases List.mem_cons.mp hj with rfl | hjr
        · rw [hframe j hinotin, hfs1]
          simp [fsUnlink]
        · exact hgone j hjr
      · intro j hj
        have hji : j ≠ i := fun he => hj (he ▸ List.mem_cons_self i rest)
        have hjr : j ∉ rest := fun hr => hj (List.mem_cons_of_mem i hr)
        rw [hframe j hjr, hfs1, fsUnlink_seg_seg _ _ _ hji, fsWrite_dest_seg]
      · rw [hman, hfs1]
        simp [fsUnlink, fsWrite]

/-- C3: if the segment files `filepath.0.bin .. filepath.(n-1).bin` and the
manifest `filepath.json` exist, `combine_files` succeeds; afterwards the
destination's content is exactly the concatenation of the segment contents in
ascending index order (its length the sum of the segment lengths), and neither
any segment file nor the manifest exists any more. -/
theorem combine_files_correct (fs : FS) (n : Nat) (contents : Nat → List Nat)
    (m0 : List Nat)
    (hc : ∀ i, i < n → fs (.seg i) = some (contents i))
    (hm : fs .manifest = some m0) :
    ∃ fs', combine_files fs n = .ok fs' ∧
      fs' .dest = some (((List.range n).map contents).flatten) ∧
      (((List.range n).map contents).flatten).length =
        ((List.range n).map (fun i => (contents i).length)).sum ∧
      (∀ i, i < n → fs' (.seg i) = none) ∧
      fs' .manifest = none := by
  have hc1 : ∀ i ∈ List.range n, fsWrite fs .dest [] (.seg i) = some (contents i) := by
    intro i hi
    rw [fsWrite_dest_seg]
    exact hc i (List.mem_range.mp hi)
  obtain ⟨fs2, hrun, hdest, hgone, -, hman⟩ :=
    combineSegs_spec (List.range n) (fsWrite fs .dest []) [] contents
      (List.nodup_range n) (by simp [fsWrite]) hc1
  have hman2 : fs2 .manifest = some m0 := by
    rw [hman]
    simpa [fsWrite] using hm
  refine ⟨fsUnlink fs2 .manifest, ?_, ?_, ?_, ?_, ?_⟩
  · unfold combine_files
    dsimp only
    rw [hrun]
    dsimp only
    rw [hman2]
  · simpa [fsUnlink] using hdest
  · simp only [List.length_flatten, List.map_map]
    rfl
  · intro i hi
    have := hgone i (List.mem_range.mpr hi)
    simpa [fsUnlink] using this
  · simp [fsUnlink]

/-- Concrete two-segment file system for the C3 witness. -/
def wfsC3 : FS := fun name =>
  match name with
  | .seg 0 => some [1, 2]
  | .seg 1 => some [3]
  | .manifest => some [7]
  | _ => none

theorem combine_files_correct_witness :
    ∃ fs', combine_files wfsC3 2 = .ok fs' ∧
      fs' .dest = some (((List.range 2).map fun i => if i = 0 then [1, 2] else [3]).flatten) ∧
      (((List.range 2).map fun i => if i = 0 then [1, 2] else [3]).flatten).length =
        ((List.range 2).map (fun i =>
          ((fun i => if i = 0 then [1, 2] else [3]) i).length)).sum ∧
      (∀ i, i < 2 → fs' (.seg i) = none) ∧
      fs' .manifest = none :=
  combine_files_correct wfsC3 2 (fun i => if i = 0 then [1, 2] else [3]) [7]
    (by decide) (by decide)

/-! ### Basicdown / Simpledown

The per-worker state: `curr` and `completed` counters, the shared `stop` and
`error` events (read and, for `error`, set by this worker; their value during
the run is part of the state), and the content of the worker's output file.
The response stream is a list of chunks as yielded by `iter_content`; a
transport error is modelled as the request raising before streaming starts
(`except Exception: self.error.set()`). -/

structure WState where
  curr : Nat
  completed : Nat
  stop : Bool
  error : Bool
  file : List Nat
deriving DecidableEq

/-- The `for chunk in r.iter_content(MEGABYTE)` loop of `Basicdown.download`:
write each non-empty chunk and add its length to `curr`; break on an empty
chunk or when the `stop` or `error` event is set. -/
def downloadLoop (st : WState) : List (List Nat) → WState
  | [] => st
  | chunk :: rest =>
    let st1 := if chunk ≠ [] then
        { st with file := st.file ++ chunk, curr := st.curr + chunk.length } else st
    if chunk = [] ∨ st1.stop ∨ st1.error then st1 else downloadLoop st1 rest

/-- `Basicdown.download(url, path, mode, **kwargs)`: mode "wb" truncates the
file, mode "ab" appends; an exception sets the shared error event and
returns. -/
def Basicdown.download (st : WState) (mode_wb : Bool) (raises : Bool)
    (chunks : List (List Nat)) : WState :=
  if raises then { st with error := true }
  else downloadLoop (if mode_wb then { st with file := [] } else st) chunks

/-- `Simpledown.worker`: run `download` with mode "wb", then unconditionally
set `self.completed = 1`. -/
def Simpledown.worker (st : WState) (raises : Bool) (chunks : List (List Nat)) : WState :=
  let st1 := Basicdown.download st true raises chunks
  { st1 with completed := 1 }

/-- C4: `Simpledown.worker` sets `completed = 1` even when the download was
interrupted.  With the stop event already set and a stream of two 1-byte
chunks, the loop breaks after the first chunk (`curr = 1 < 2` bytes read),
yet the worker returns with `completed = 1`; likewise a transport error sets
the error event but the worker still returns `completed = 1`. -/
theorem simpledown_completed_bug :
    ((Simpledown.worker ⟨0, 0, true, false, []⟩ false [[1], [2]]).completed = 1 ∧
      (Simpledown.worker ⟨0, 0, true, false, []⟩ false [[1], [2]]).curr = 1) ∧
    ((Simpledown.worker ⟨0, 0, false, false, []⟩ true [[1]]).completed = 1 ∧
      (Simpledown.worker ⟨0, 0, false, false, []⟩ true [[1]]).error = true) := by
  decide

/-! ### Multidown.worker and the kwargs deep copy

`self.kwargs` may contain a `"headers"` dictionary shared (by reference) with
the sibling workers.  Mutable dictionaries live in a heap of references;
`copy.deepcopy` allocates a fresh reference, `dict.setdefault` either returns
the existing reference or allocates and stores a fresh empty one, and
`dict.update` mutates the dictionary behind a reference in place. -/

/-- Heap of header dictionaries, addressed by references `< next`. -/
structure DictHeap where
  store : Nat → Option (List (String × String))
  next : Nat

/-- The value of a kwargs dictionary: an optional reference to a headers
dictionary plus the remaining (immutable) keyword entries. -/
structure KwargsV where
  headers : Option Nat
  rest : List (String × String)

def heapAlloc (h : DictHeap) (v : List (String × String)) : DictHeap × Nat :=
  (⟨fun r => if r = h.next then some v else h.store r, h.next + 1⟩, h.next)

def heapSet (h : DictHeap) (r : Nat) (v : List (String × String)) : DictHeap :=
  ⟨fun r2 => if r2 = r then some v else h.store r2, h.next⟩

/-- `dict.update({key: val})`: replace the value at `key`, or append it. -/
def dictUpdate (d : List (String × String)) (key val : String) :
    List (String × String) :=
  if d.any (fun p => p.1 == key) then
    d.map (fun p => if p.1 = key then (key, val) else p)
  else d ++ [(key, val)]

/-- `copy.deepcopy(self.kwargs)`: the headers dictionary, if present, is
copied into a fresh reference. -/
def deepcopyKwargs (h : DictHeap) (k : KwargsV) : DictHeap × KwargsV :=
  match k.headers with
  | none => (h, ⟨none, k.rest⟩)
  | some r =>
      let a := heapAlloc h ((h.store r).getD [])
      (a.1, ⟨some a.2, k.rest⟩)

/-- Lines 195-197 of `Multidown.worker`:
`start = start + self.curr`, `kwargs = copy.deepcopy(self.kwargs)`,
`kwargs.setdefault("headers", {}).update({"range": f"bytes={start}-{end}"})`.
Returns the heap after the run and the kwargs value passed to `download`. -/
def Multidown.workerKwargs (h : DictHeap) (selfKwargs : KwargsV) (start end_ : Int)
    (curr : Nat) : DictHeap × KwargsV :=
  let start := start + curr
  let dk := deepcopyKwargs h selfKwargs
  let hdr : DictHeap × Nat × KwargsV :=
    match dk.2.headers with
    | some r => (dk.1, r, dk.2)
    | none =>
        let a := heapAlloc dk.1 []
        (a.1, a.2, ⟨some a.2, dk.2.rest⟩)
  (heapSet hdr.1 hdr.2.1
      (dictUpdate ((hdr.1.store hdr.2.1).getD []) "range"
        ("bytes=" ++ toString start ++ "-" ++ toString end_)),
    hdr.2.2)

/-- C10: running the range-header setup of `Multidown.worker` never mutates
any pre-existing dictionary: every reference allocated before the call (in
particular the caller's shared headers dictionary) holds exactly the same
value afterwards — the range header is written only into the deep copy. -/
theorem workerKwargs_frame (h : DictHeap) (selfKwargs : KwargsV) (start end_ : Int)
    (curr : Nat) (r : Nat) (hr : r < h.next) :
    (Multidown.workerKwargs h selfKwargs start end_ curr).1.store r = h.store r := by
  have hne : r ≠ h.next := Nat.ne_of_lt hr
  unfold Multidown.workerKwargs deepcopyKwargs heapAlloc heapSet
  cases hh : selfKwargs.headers with
  | none => simp [hh, hne]
  | some r0 => simp [hh, hne]

/-- Concrete heap for the C10 witness: one shared headers dictionary at
reference 0. -/
def wheapC10 : DictHeap := ⟨fun r => if r = 0 then some [("accept", "a")] else none, 1⟩

def wkwC10 : KwargsV := ⟨some 0, [("timeout", "20")]⟩

theorem workerKwargs_frame_witness :
    (Multidown.workerKwargs wheapC10 wkwC10 5 10 2).1.store 0 = wheapC10.store 0 :=
  workerKwargs_frame wheapC10 wkwC10 5 10 2 0 (by decide)
